import Mathlib

/-!
Verification of the two-tower recommender core (`two-tower.js` and its
variants).  The embedding models embedding tables as total functions
`ℕ → ℕ → ℝ` together with explicit row/column counts, exactly as the
source manipulates dense `[rows, dim]` float tensors; mini-batches are
lists of row indices.  `tf.gather`, the in-batch sampled-softmax losses,
the Adam optimizer update (tf.js `AdamOptimizer.applyGradients`), the
full-catalog scoring routine and the PCA projection are translated
operation by operation.  All arithmetic is exact real arithmetic.
-/

/-- Model state owned by a `TwoTowerModel` instance: the two embedding
tables created in the constructor, the Adam optimizer state (first and
second moment accumulators for each table plus the global step counter
driving the `accBeta` bias-correction factors of tf.js Adam), and the
construction parameters. -/
structure ModelState where
  numUsers : ℕ
  numItems : ℕ
  embeddingDim : ℕ
  learningRate : ℝ
  userEmbeddings : ℕ → ℕ → ℝ
  itemEmbeddings : ℕ → ℕ → ℝ
  userM : ℕ → ℕ → ℝ
  userV : ℕ → ℕ → ℝ
  itemM : ℕ → ℕ → ℝ
  itemV : ℕ → ℕ → ℝ
  stepCount : ℕ

/-- Translation of `tf.gather(table, indices)`: batch position `i` holds row
`indices[i]` of the table.  Out-of-range positions read the list default `0`,
matching that the source performs no bound check of its own. -/
def gatherRows (table : ℕ → ℕ → ℝ) (idxs : List ℕ) : ℕ → ℕ → ℝ :=
  fun i d => table (idxs.getD i 0) d

/-- Translation of `tf.sum(tf.mul(userEmbs, itemEmbs), 1)` in `trainStep`:
the per-position positive score, the dot product of the gathered user row
and the gathered item row at batch position `i`. -/
noncomputable def posScores (s : ModelState) (us ix : List ℕ) (i : ℕ) : ℝ :=
  ∑ d ∈ Finset.range s.embeddingDim,
    gatherRows s.userEmbeddings us i d * gatherRows s.itemEmbeddings ix i d

/-- Translation of `tf.matMul(userEmbs, itemEmbs, false, true)`: entry
`(i, j)` of the `[B, B]` pairwise score matrix. -/
noncomputable def pairScores (s : ModelState) (us ix : List ℕ) (i j : ℕ) : ℝ :=
  ∑ d ∈ Finset.range s.embeddingDim,
    gatherRows s.userEmbeddings us i d * gatherRows s.itemEmbeddings ix j d

/-- Translation of `tf.concat([posScoresCol, allPairwise], 1)` in the
`two-tower.js` / `part_002` / `app.js` variants: entry `(i, k)` of the
`[B, B+1]` score matrix whose column `0` is the positive score and whose
column `j+1` is pairwise column `j`. -/
noncomputable def allScores (s : ModelState) (us ix : List ℕ) (i k : ℕ) : ℝ :=
  if k = 0 then posScores s us ix i else pairScores s us ix i (k - 1)

/-- Softmax denominator of row `i` of the `[B, B+1]` score matrix, as inside
`tf.losses.sparseSoftmaxCrossEntropy`. -/
noncomputable def rowDenom (s : ModelState) (us ix : List ℕ) (i : ℕ) : ℝ :=
  ∑ k ∈ Finset.range (us.length + 1), Real.exp (allScores s us ix i k)

/-- Softmax probability of class `k` in row `i` of the `[B, B+1]` score
matrix. -/
noncomputable def rowProb (s : ModelState) (us ix : List ℕ) (i k : ℕ) : ℝ :=
  Real.exp (allScores s us ix i k) / rowDenom s us ix i

/-- Loss returned by `trainStep` of `two-tower.js` / `part_002` / `app.js`:
`tf.losses.sparseSoftmaxCrossEntropy(labels = zeros, allScores)` with the
default `SUM_BY_NONZERO_WEIGHTS` reduction, i.e. the mean over the `B` rows
of minus the log softmax probability of label class `0`. -/
noncomputable def lossConcat (s : ModelState) (us ix : List ℕ) : ℝ :=
  (∑ i ∈ Finset.range us.length, -Real.log (rowProb s us ix i 0)) / us.length

/-- Softmax denominator of row `i` of the `[B, B]` logits matrix of the
`part_003` variant (`logits = tf.matMul(userEmbs, itemEmbs, false, true)`). -/
noncomputable def diagDenom (s : ModelState) (us ix : List ℕ) (i : ℕ) : ℝ :=
  ∑ j ∈ Finset.range us.length, Real.exp (pairScores s us ix i j)

/-- Softmax probability of class `j` in row `i` of the `[B, B]` logits
matrix of the `part_003` variant. -/
noncomputable def diagProb (s : ModelState) (us ix : List ℕ) (i j : ℕ) : ℝ :=
  Real.exp (pairScores s us ix i j) / diagDenom s us ix i

/-- Translation of `tf.oneHot(tf.range(0, batchSize), batchSize)` in
`part_003`: entry `(i, j)` of the label matrix. -/
noncomputable def oneHotLabel (i j : ℕ) : ℝ :=
  if j = i then 1 else 0

/-- Loss returned by `trainStep` of the `part_003` variant:
`tf.losses.softmaxCrossEntropy(oneHot(range B, B), logits)` with the default
mean reduction, i.e. the mean over rows of `∑ⱼ labels[i][j] ·
(-log softmax(logits[i])[j])`. -/
noncomputable def lossDiag (s : ModelState) (us ix : List ℕ) : ℝ :=
  (∑ i ∈ Finset.range us.length, ∑ j ∈ Finset.range us.length,
    oneHotLabel i j * -Real.log (diagProb s us ix i j)) / us.length

/-- Modelled from the spec: mean over the `B` rows of the softmax
cross-entropy between row `i` of the `B × B` logits matrix `L = U Iᵀ` and
the one-hot label at position `i` (the diagonal-label formulation the spec
adopts as canonical). -/
noncomputable def specDiagLoss (s : ModelState) (us ix : List ℕ) : ℝ :=
  (∑ i ∈ Finset.range us.length, -Real.log (diagProb s us ix i i)) / us.length

/-- Modelled from the spec: the dot product of a user vector and an item
row, `scores[i] = dot(userVector, itemVector[i])`. -/
noncomputable def specDot (u w : ℕ → ℝ) (dim : ℕ) : ℝ :=
  ∑ d ∈ Finset.range dim, u d * w d

/-- Mathematical gradient of `lossConcat` with respect to the gathered user
row at batch position `i` (coordinate `d`): backpropagation through the
softmax cross-entropy, the concat, the matmul and the rowwise dot product
of the source `trainStep`. -/
noncomputable def gradPosU (s : ModelState) (us ix : List ℕ) (i d : ℕ) : ℝ :=
  ((rowProb s us ix i 0 - 1) * gatherRows s.itemEmbeddings ix i d
    + ∑ j ∈ Finset.range us.length,
        rowProb s us ix i (j + 1) * gatherRows s.itemEmbeddings ix j d) / us.length

/-- Mathematical gradient of `lossConcat` with respect to the gathered item
row at batch position `j` (coordinate `d`). -/
noncomputable def gradPosI (s : ModelState) (us ix : List ℕ) (j d : ℕ) : ℝ :=
  ((rowProb s us ix j 0 - 1) * gatherRows s.userEmbeddings us j d
    + ∑ i ∈ Finset.range us.length,
        rowProb s us ix i (j + 1) * gatherRows s.userEmbeddings us i d) / us.length

/-- Backward pass of `tf.gather` on the user table (tf.js scatters the
per-position gradients with `unsortedSegmentSum`): row `r` of the dense
gradient tensor for `userEmbeddings`, zero for every row not referenced by
the batch. -/
noncomputable def gradUserTable (s : ModelState) (us ix : List ℕ) (r d : ℕ) : ℝ :=
  ∑ i ∈ Finset.range us.length, if us.getD i 0 = r then gradPosU s us ix i d else 0

/-- Backward pass of `tf.gather` on the item table: row `r` of the dense
gradient tensor for `itemEmbeddings`. -/
noncomputable def gradItemTable (s : ModelState) (us ix : List ℕ) (r d : ℕ) : ℝ :=
  ∑ i ∈ Finset.range us.length, if ix.getD i 0 = r then gradPosI s us ix i d else 0

/-- Adam default `beta1` of `tf.train.adam`. -/
noncomputable def adamBeta1 : ℝ := 9 / 10

/-- Adam default `beta2` of `tf.train.adam`. -/
noncomputable def adamBeta2 : ℝ := 999 / 1000

/-- Adam default `epsilon` of `tf.train.adam` (the tf.js backend epsilon). -/
noncomputable def adamEps : ℝ := 1 / 10000000

/-- First-moment update of tf.js `AdamOptimizer.applyGradients`:
`newFirstMoment = beta1 * m + (1 - beta1) * g`. -/
noncomputable def adamNewM (m g : ℝ) : ℝ :=
  adamBeta1 * m + (1 - adamBeta1) * g

/-- Second-moment update of tf.js `AdamOptimizer.applyGradients`:
`newSecondMoment = beta2 * v + (1 - beta2) * g²`. -/
noncomputable def adamNewV (v g : ℝ) : ℝ :=
  adamBeta2 * v + (1 - adamBeta2) * g * g

/-- Parameter update of tf.js `AdamOptimizer.applyGradients` at global step
`t` (so the accumulated `accBeta` factors are `beta1 ^ t`, `beta2 ^ t`):
`θ - lr * (m / (1 - beta1^t)) / (sqrt (v / (1 - beta2^t)) + eps)`. -/
noncomputable def adamNewTheta (lr theta m v : ℝ) (t : ℕ) : ℝ :=
  theta - lr * ((m / (1 - adamBeta1 ^ t)) / (Real.sqrt (v / (1 - adamBeta2 ^ t)) + adamEps))

/-- One full Adam entry update: new moments from the gradient, then the
bias-corrected parameter step. -/
noncomputable def adamUpdatedEntry (lr theta m v g : ℝ) (t : ℕ) : ℝ :=
  adamNewTheta lr theta (adamNewM m g) (adamNewV v g) t

/-- State after `optimizer.minimize` inside `trainStep` of the
`two-tower.js` / `part_002` / `app.js` variants: the dense gradient tensors
produced by the gather backward pass are handed to Adam, which updates
every entry of both tables (tf.js Adam is dense: rows with zero gradient
still go through the moment-decay update) and advances the step counter. -/
noncomputable def applyAdamStep (s : ModelState) (us ix : List ℕ) : ModelState :=
  { s with
    userEmbeddings := fun r d =>
      adamUpdatedEntry s.learningRate (s.userEmbeddings r d) (s.userM r d)
        (s.userV r d) (gradUserTable s us ix r d) (s.stepCount + 1)
    userM := fun r d => adamNewM (s.userM r d) (gradUserTable s us ix r d)
    userV := fun r d => adamNewV (s.userV r d) (gradUserTable s us ix r d)
    itemEmbeddings := fun r d =>
      adamUpdatedEntry s.learningRate (s.itemEmbeddings r d) (s.itemM r d)
        (s.itemV r d) (gradItemTable s us ix r d) (s.stepCount + 1)
    itemM := fun r d => adamNewM (s.itemM r d) (gradItemTable s us ix r d)
    itemV := fun r d => adamNewV (s.itemV r d) (gradItemTable s us ix r d)
    stepCount := s.stepCount + 1 }

/-- Error taxonomy of the spec for `trainStep` (`IndexOutOfRangeError`,
`DegenerateBatchError`, `NumericalDivergenceError`).  The source never
raises any of them; the type exists so that claims about failure are
statable. -/
inductive TrainErr where
  | indexOutOfRange : TrainErr
  | degenerateBatch : TrainErr
  | numericalDivergence : TrainErr
deriving DecidableEq

/-- Translation of `trainStep(userIndicesArray, itemIndicesArray)` of the
`two-tower.js` / `part_002` / `app.js` variants: the source contains no
validation of batch size or index bounds and no finiteness check, so every
call returns the pre-update loss together with the updated state; the
spec's error channel is never used. -/
noncomputable def trainStepConcat (s : ModelState) (us ix : List ℕ) :
    Except TrainErr (ℝ × ModelState) :=
  Except.ok (lossConcat s us ix, applyAdamStep s us ix)

/-- Translation of `scoreAllItems(userEmbeddingTensor)`: the matrix product
`itemEmbeddings [N, D] ⬝ u [D, 1]`, squeezed to a length-`numItems`
sequence. -/
noncomputable def scoreAllItems (s : ModelState) (u : ℕ → ℝ) : List ℝ :=
  (List.range s.numItems).map
    (fun i => ∑ d ∈ Finset.range s.embeddingDim, s.itemEmbeddings i d * u d)

/-- Translation of `tf.randomUniform([n], 0, total, 'int32')`: `n` draws
from a random source `rng`, each reduced into `[0, total)` as the primitive
guarantees. -/
def pcaSampleIndices (rng : ℕ → ℕ) (n total : ℕ) : List ℕ :=
  (List.range n).map fun k => rng k % total

/-- Translation of `sampleEmbs.mean(0)`: the column mean over the first
`nRows` rows. -/
noncomputable def colMean (m : ℕ → ℕ → ℝ) (nRows d : ℕ) : ℝ :=
  (∑ i ∈ Finset.range nRows, m i d) / nRows

/-- Translation of `sampleEmbs.sub(mean)`: the centered sample matrix. -/
noncomputable def centeredMatrix (m : ℕ → ℕ → ℝ) (nRows : ℕ) : ℕ → ℕ → ℝ :=
  fun i d => m i d - colMean m nRows d

/-- Translation of `centeredT.matMul(centered).div(n - 1)` in `part_002`:
the `D × D` covariance matrix of the centered sample. -/
noncomputable def covMatrix (m : ℕ → ℕ → ℝ) (nRows : ℕ) : ℕ → ℕ → ℝ :=
  fun a b =>
    (∑ i ∈ Finset.range nRows, centeredMatrix m nRows i a * centeredMatrix m nRows i b)
      / (nRows - 1 : ℕ)

/-- Translation of `computePCAProjection(numSamples)` of the `part_002` /
`app.js` / `two-tower.js` variants: clamp the sample count to
`min(numSamples, numItems)`, draw that many random indices, gather, center,
form the covariance, obtain the right singular vectors from the backend SVD
(modelled as an oracle `svdV`, whose output the projection uses through its
first two columns only), and project the centered rows.  Returns the
projection coordinates paired with the sampled indices. -/
noncomputable def computePCAProjection (s : ModelState)
    (svdV : (ℕ → ℕ → ℝ) → ℕ → ℕ → ℝ) (rng : ℕ → ℕ) (numSamples : ℕ) :
    List (ℝ × ℝ) × List ℕ :=
  let n := min numSamples s.numItems
  let idxs := pcaSampleIndices rng n s.numItems
  let sample := gatherRows s.itemEmbeddings idxs
  let centered := centeredMatrix sample n
  let pcs := svdV (covMatrix sample n)
  ((List.range n).map fun i =>
      (∑ d ∈ Finset.range s.embeddingDim, centered i d * pcs d 0,
       ∑ d ∈ Finset.range s.embeddingDim, centered i d * pcs d 1),
   idxs)

/-- Translation of `computePCAProjection(numSamples)` of the `part_003`
variant: identical pipeline except that the sample count is NOT clamped to
`numItems` (`tf.randomUniform([numSamples], 0, this.numItems)`) and the SVD
oracle is applied to the centered sample matrix directly. -/
noncomputable def computePCAProjectionNoClamp (s : ModelState)
    (svdV : (ℕ → ℕ → ℝ) → ℕ → ℕ → ℝ) (rng : ℕ → ℕ) (numSamples : ℕ) :
    List (ℝ × ℝ) × List ℕ :=
  let idxs := pcaSampleIndices rng numSamples s.numItems
  let sample := gatherRows s.itemEmbeddings idxs
  let centered := centeredMatrix sample numSamples
  let pcs := svdV centered
  ((List.range numSamples).map fun i =>
      (∑ d ∈ Finset.range s.embeddingDim, centered i d * pcs d 0,
       ∑ d ∈ Finset.range s.embeddingDim, centered i d * pcs d 1),
   idxs)

/-- A trivial SVD oracle used to instantiate witnesses and counterexamples
at concrete inputs. -/
def svdZero : (ℕ → ℕ → ℝ) → ℕ → ℕ → ℝ := fun _ _ _ => 0

/-- Concrete freshly-initialized model with all-zero embeddings:
2 users, 2 items, embedding dimension 1, learning rate 1, zero optimizer
moments, step counter 0. -/
def zs : ModelState where
  numUsers := 2
  numItems := 2
  embeddingDim := 1
  learningRate := 1
  userEmbeddings := fun _ _ => 0
  itemEmbeddings := fun _ _ => 0
  userM := fun _ _ => 0
  userV := fun _ _ => 0
  itemM := fun _ _ => 0
  itemV := fun _ _ => 0
  stepCount := 0

/-- Concrete freshly-initialized model whose user row 0 is the vector `[1]`
and whose remaining rows are zero. -/
def exS : ModelState where
  numUsers := 2
  numItems := 2
  embeddingDim := 1
  learningRate := 1
  userEmbeddings := fun r _ => if r = 0 then 1 else 0
  itemEmbeddings := fun _ _ => 0
  userM := fun _ _ => 0
  userV := fun _ _ => 0
  itemM := fun _ _ => 0
  itemV := fun _ _ => 0
  stepCount := 0

/-- The model `exS` shrunk to a single user row, so that user index 1 is
out of range. -/
def oobS : ModelState := { exS with numUsers := 1 }

/-- Bridge between a mapped `List.range` sum and the corresponding
`Finset.range` sum. -/
theorem listRangeMapSum (f : ℕ → ℝ) (n : ℕ) :
    (((List.range n).map f).sum) = ∑ i ∈ Finset.range n, f i := by
  induction n with
  | zero => simp
  | succ k ih => rw [List.range_succ] ; simp [ih, Finset.sum_range_succ]

/-- Column sums of a centered matrix vanish. -/
theorem sum_centered_eq_zero (m : ℕ → ℕ → ℝ) (n d : ℕ) :
    ∑ i ∈ Finset.range n, centeredMatrix m n i d = 0 := by
  rcases eq_or_ne n 0 with h | h
  · subst h; simp
  · have hn : (n : ℝ) ≠ 0 := Nat.cast_ne_zero.mpr h
    simp only [centeredMatrix, colMean, Finset.sum_sub_distrib, Finset.sum_const,
      Finset.card_range, nsmul_eq_mul]
    field_simp

/-- An Adam entry with zero gradient and zero moments is a no-op. -/
theorem adamEntry_zero (lr theta : ℝ) (t : ℕ) :
    adamUpdatedEntry lr theta 0 0 0 t = theta := by
  simp [adamUpdatedEntry, adamNewTheta, adamNewM, adamNewV]

/-- Rows absent from a batch receive zero gradient from the gather
backward pass (user table). -/
theorem gradUserTable_eq_zero (s : ModelState) (us ix : List ℕ) (r d : ℕ)
    (h : r ∉ us) : gradUserTable s us ix r d = 0 := by
  refine Finset.sum_eq_zero fun i hi => ?_
  rw [if_neg]
  intro hEq
  have hlt : i < us.length := Finset.mem_range.mp hi
  rw [List.getD_eq_getElem us 0 hlt] at hEq
  exact h (hEq ▸ List.getElem_mem hlt)

/-- Rows absent from a batch receive zero gradient from the gather
backward pass (item table). -/
theorem gradItemTable_eq_zero (s : ModelState) (us ix : List ℕ) (r d : ℕ)
    (h : r ∉ ix) (hlen : us.length = ix.length) :
    gradItemTable s us ix r d = 0 := by
  refine Finset.sum_eq_zero fun i hi => ?_
  rw [if_neg]
  intro hEq
  have hi2 : i < ix.length := hlen ▸ Finset.mem_range.mp hi
  rw [List.getD_eq_getElem ix 0 hi2] at hEq
  exact h (hEq ▸ List.getElem_mem hi2)

/-- Projecting a centered matrix by any linear form yields coordinates
summing to zero. -/
theorem sum_proj_zero (m : ℕ → ℕ → ℝ) (n dim : ℕ) (p : ℕ → ℝ) :
    ∑ i ∈ Finset.range n, ∑ d ∈ Finset.range dim, centeredMatrix m n i d * p d = 0 := by
  rw [Finset.sum_comm]
  refine Finset.sum_eq_zero fun d _ => ?_
  rw [← Finset.sum_mul, sum_centered_eq_zero, zero_mul]

/-- Claim C8: for every user vector and every state of the embedding
matrices, `scoreAllItems` returns a sequence of length exactly `numItems`
(each entry the real-valued dot product of the user vector with an item
row, so in exact real arithmetic no non-finite value arises). -/
theorem score_length_eq_numItems (s : ModelState) (u : ℕ → ℝ) :
    (scoreAllItems s u).length = s.numItems := by
  simp [scoreAllItems]

/-- Claim C7: in shallow mode, entry `i` of the sequence returned by
`scoreAllItems` equals the dot product of the user vector with item row
`i`, within the floating tolerance `1e-5` (in exact real arithmetic the two
coincide). -/
theorem score_entry_is_dot (s : ModelState) (u : ℕ → ℝ) (i : ℕ)
    (hi : i < s.numItems) :
    |(scoreAllItems s u).getD i 0 -
        specDot u (s.itemEmbeddings i) s.embeddingDim| ≤ 1 / 100000 := by
  have hlen : i < (scoreAllItems s u).length := by
    simpa [scoreAllItems] using hi
  rw [List.getD_eq_getElem _ _ hlen]
  have hentry : (scoreAllItems s u)[i] =
      ∑ d ∈ Finset.range s.embeddingDim, s.itemEmbeddings i d * u d := by
    simp [scoreAllItems]
  have hdot : ∑ d ∈ Finset.range s.embeddingDim, s.itemEmbeddings i d * u d
      = specDot u (s.itemEmbeddings i) s.embeddingDim :=
    Finset.sum_congr rfl fun d _ => mul_comm _ _
  rw [hentry, hdot, sub_self, abs_zero]
  norm_num

/-- Witness for C7 at a concrete state, user vector and index. -/
theorem score_entry_is_dot_witness :
    0 < zs.numItems ∧
    |(scoreAllItems zs fun _ => 1).getD 0 0 -
        specDot (fun _ => 1) (zs.itemEmbeddings 0) zs.embeddingDim| ≤ 1 / 100000 :=
  ⟨by decide, score_entry_is_dot zs (fun _ => 1) 0 (by decide)⟩

/-- Claim C10: the 2-D coordinates returned by `computePCAProjection` are
mean-centered: each of the two output coordinates sums to zero over the
returned rows, because the projection is a linear map applied to the
sample matrix after its column means were subtracted. -/
theorem pca_coordinates_mean_centered (s : ModelState)
    (svdV : (ℕ → ℕ → ℝ) → ℕ → ℕ → ℝ) (rng : ℕ → ℕ) (numSamples : ℕ) :
    ((computePCAProjection s svdV rng numSamples).1.map Prod.fst).sum = 0 ∧
    ((computePCAProjection s svdV rng numSamples).1.map Prod.snd).sum = 0 := by
  constructor <;>
  · simp only [computePCAProjection, List.map_map, Function.comp_def]
    rw [listRangeMapSum]
    exact sum_proj_zero _ _ _ _

/-- Claim C6 (amended): for the clamping variants, `computePCAProjection`
returns coordinates and sample indices both of length exactly
`min(sampleSize, numItems)` with every sampled index in `[0, numItems)`. -/
theorem pca_clamped_lengths_and_ranges (s : ModelState)
    (svdV : (ℕ → ℕ → ℝ) → ℕ → ℕ → ℝ) (rng : ℕ → ℕ) (n : ℕ)
    (hn : 1 ≤ n) (hItems : 0 < s.numItems) :
    (computePCAProjection s svdV rng n).1.length = min n s.numItems ∧
    (computePCAProjection s svdV rng n).2.length = min n s.numItems ∧
    ∀ r ∈ (computePCAProjection s svdV rng n).2, r < s.numItems := by
  refine ⟨by simp [computePCAProjection],
    by simp [computePCAProjection, pcaSampleIndices], ?_⟩
  intro r hr
  simp only [computePCAProjection, pcaSampleIndices, List.mem_map,
    List.mem_range] at hr
  obtain ⟨k, -, rfl⟩ := hr
  exact Nat.mod_lt _ hItems

/-- Witness for C6 at a concrete state, SVD oracle, random source and
sample size. -/
theorem pca_clamped_lengths_and_ranges_witness :
    (1 ≤ 1 ∧ 0 < zs.numItems) ∧
    ((computePCAProjection zs svdZero id 1).1.length = min 1 zs.numItems ∧
     (computePCAProjection zs svdZero id 1).2.length = min 1 zs.numItems ∧
     ∀ r ∈ (computePCAProjection zs svdZero id 1).2, r < zs.numItems) :=
  ⟨⟨le_refl 1, by decide⟩,
    pca_clamped_lengths_and_ranges zs svdZero id 1 (le_refl 1) (by decide)⟩

/-- Counterexample for C6 as stated: the `part_003` variant does not clamp
the sample size, so with `numItems = 2` and `sampleSize = 3` it returns 3
coordinates instead of `min 3 2 = 2`. -/
theorem part003_pca_length_not_clamped :
    zs.numItems = 2 ∧
    (computePCAProjectionNoClamp zs svdZero id 3).1.length = 3 ∧
    (computePCAProjectionNoClamp zs svdZero id 3).1.length ≠
      min 3 zs.numItems := by
  refine ⟨rfl, by simp [computePCAProjectionNoClamp], ?_⟩
  norm_num [computePCAProjectionNoClamp, zs]

/-- Claim C1 (amended): the `part_003` variant of `trainStep` returns
exactly the spec's canonical diagonal-label `B × B` loss: the mean over the
`B` rows of the softmax cross-entropy between row `i` of `L = U Iᵀ` and the
one-hot label at position `i`. -/
theorem diag_variant_loss_matches_spec (s : ModelState) (us ix : List ℕ)
    (hB : 2 ≤ us.length) : lossDiag s us ix = specDiagLoss s us ix := by
  unfold lossDiag specDiagLoss
  congr 1
  refine Finset.sum_congr rfl fun i hi => ?_
  have hsel : ∀ j, oneHotLabel i j * -Real.log (diagProb s us ix i j)
      = if j = i then -Real.log (diagProb s us ix i j) else 0 := by
    intro j; by_cases h : j = i <;> simp [oneHotLabel, h]
  rw [Finset.sum_congr rfl fun j _ => hsel j, Finset.sum_ite_eq' _ _ _, if_pos hi]

/-- Witness for C1 at a concrete state and size-2 batch. -/
theorem diag_variant_loss_matches_spec_witness :
    2 ≤ ([0, 1] : List ℕ).length ∧
    lossDiag zs [0, 1] [0, 1] = specDiagLoss zs [0, 1] [0, 1] :=
  ⟨by decide, diag_variant_loss_matches_spec zs [0, 1] [0, 1] (by decide)⟩

/-- Counterexample for C1 as stated: the `two-tower.js` / `part_002` /
`app.js` variant of `trainStep` does not return the diagonal-label `B × B`
loss.  At the all-zero model with the size-2 batch `([0,1], [0,1])` it
returns `log 3` (softmax over `B + 1 = 3` classes with the positive score
duplicated in front), while the diagonal-label formulation gives `log 2`. -/
theorem concat_variant_loss_differs_from_diag_spec :
    ([0, 1] : List ℕ).length = 2 ∧
    lossConcat zs [0, 1] [0, 1] = Real.log 3 ∧
    specDiagLoss zs [0, 1] [0, 1] = Real.log 2 ∧
    lossConcat zs [0, 1] [0, 1] ≠ specDiagLoss zs [0, 1] [0, 1] := by
  have hpos : ∀ i, posScores zs [0, 1] [0, 1] i = 0 := by
    intro i; simp [posScores, gatherRows, zs]
  have hpair : ∀ i j, pairScores zs [0, 1] [0, 1] i j = 0 := by
    intro i j; simp [pairScores, gatherRows, zs]
  have hall : ∀ i k, allScores zs [0, 1] [0, 1] i k = 0 := by
    intro i k; unfold allScores; rw [hpos, hpair]; simp
  have hconcat : lossConcat zs [0, 1] [0, 1] = Real.log 3 := by
    have hprob : ∀ i, rowProb zs [0, 1] [0, 1] i 0 = 1 / 3 := by
      intro i
      unfold rowProb rowDenom
      rw [hall]
      rw [Finset.sum_congr rfl fun k _ => by rw [hall]]
      simp [Real.exp_zero]
    unfold lossConcat
    rw [Finset.sum_congr rfl fun i _ => by rw [hprob i, one_div, Real.log_inv, neg_neg]]
    rw [Finset.sum_const, Finset.card_range]
    norm_num
  have hdiag : specDiagLoss zs [0, 1] [0, 1] = Real.log 2 := by
    have hprob : ∀ i, diagProb zs [0, 1] [0, 1] i i = 1 / 2 := by
      intro i
      unfold diagProb diagDenom
      rw [hpair]
      rw [Finset.sum_congr rfl fun j _ => by rw [hpair]]
      simp [Real.exp_zero]
    unfold specDiagLoss
    rw [Finset.sum_congr rfl fun i _ => by rw [hprob i, one_div, Real.log_inv, neg_neg]]
    rw [Finset.sum_const, Finset.card_range]
    norm_num
  refine ⟨rfl, hconcat, hdiag, ?_⟩
  rw [hconcat, hdiag]
  exact ne_of_gt (Real.log_lt_log (by norm_num) (by norm_num))

/-- Claim C5 (amended): `trainStep` of the concat variants performs no
batch-size validation; a size-1 batch is processed like any other and its
loss is identically `log 2`, because the only two score columns both hold
the positive score. -/
theorem batch_size_one_loss_is_log_two (s : ModelState) (u i : ℕ) :
    trainStepConcat s [u] [i] = Except.ok (Real.log 2, applyAdamStep s [u] [i]) := by
  have hloss : lossConcat s [u] [i] = Real.log 2 := by
    have hP : pairScores s [u] [i] 0 0 = posScores s [u] [i] 0 := rfl
    have hprob : rowProb s [u] [i] 0 0 = 1 / 2 := by
      unfold rowProb rowDenom
      rw [show ([u] : List ℕ).length + 1 = 2 from rfl, Finset.sum_range_succ,
        Finset.sum_range_one]
      unfold allScores
      norm_num [hP]
      rw [div_eq_iff (by positivity)]
      ring
    unfold lossConcat
    rw [show ([u] : List ℕ).length = 1 from rfl, Finset.sum_range_one, hprob,
      one_div, Real.log_inv, neg_neg]
    norm_num
  rw [trainStepConcat, hloss]

/-- Counterexample for C5 as stated: at a size-1 batch the call is not
rejected with `DegenerateBatchError`; it succeeds. -/
theorem singleton_batch_not_rejected :
    ([0] : List ℕ).length = 1 ∧
    trainStepConcat zs [0] [0] ≠ Except.error TrainErr.degenerateBatch :=
  ⟨rfl, fun h => by simp [trainStepConcat] at h⟩

/-- Column `i + 1` of row `i` of the `[B, B+1]` score matrix duplicates the
positive score sitting in column `0`. -/
theorem allScores_dup (s : ModelState) (us ix : List ℕ) (i : ℕ) :
    allScores s us ix i (i + 1) = allScores s us ix i 0 := by
  unfold allScores
  rw [if_neg (Nat.succ_ne_zero i), if_pos rfl, Nat.add_sub_cancel]
  rfl

/-- The softmax denominator of a score row is positive. -/
theorem rowDenom_pos (s : ModelState) (us ix : List ℕ) (i : ℕ) :
    0 < rowDenom s us ix i :=
  Finset.sum_pos (fun k _ => Real.exp_pos _)
    (Finset.nonempty_range_iff.mpr (Nat.succ_ne_zero _))

/-- Because the positive score appears twice in its row, its softmax
probability is at most one half. -/
theorem rowProb_le_half (s : ModelState) (us ix : List ℕ) (i : ℕ)
    (hi : i < us.length) : rowProb s us ix i 0 ≤ 1 / 2 := by
  have hdup := allScores_dup s us ix i
  have hsub : ({0, i + 1} : Finset ℕ) ⊆ Finset.range (us.length + 1) := by
    intro k hk
    simp only [Finset.mem_insert, Finset.mem_singleton] at hk
    rcases hk with rfl | rfl
    · exact Finset.mem_range.mpr (Nat.succ_pos _)
    · exact Finset.mem_range.mpr (Nat.succ_lt_succ hi)
  have hne : (0 : ℕ) ≠ i + 1 := (Nat.succ_ne_zero i).symm
  have hpairsum : ∑ k ∈ ({0, i + 1} : Finset ℕ), Real.exp (allScores s us ix i k)
      = Real.exp (allScores s us ix i 0) + Real.exp (allScores s us ix i (i + 1)) :=
    Finset.sum_pair hne
  have hbound : Real.exp (allScores s us ix i 0)
      + Real.exp (allScores s us ix i (i + 1)) ≤ rowDenom s us ix i := by
    rw [← hpairsum]
    exact Finset.sum_le_sum_of_subset_of_nonneg hsub
      fun k _ _ => (Real.exp_pos _).le
  rw [hdup] at hbound
  unfold rowProb
  rw [div_le_iff₀ (rowDenom_pos s us ix i)]
  linarith

/-- Each row of the concat-variant loss contributes at least `log 2`. -/
theorem row_ce_ge_log_two (s : ModelState) (us ix : List ℕ) (i : ℕ)
    (hi : i < us.length) :
    Real.log 2 ≤ -Real.log (rowProb s us ix i 0) := by
  have hpos : 0 < rowProb s us ix i 0 :=
    div_pos (Real.exp_pos _) (rowDenom_pos s us ix i)
  have hlog := Real.log_le_log hpos (rowProb_le_half s us ix i hi)
  rw [one_div, Real.log_inv] at hlog
  linarith

/-- Claim C9: in the variants that concatenate the positive-score column in
front of the `B × B` pairwise matrix, row `i` holds the positive score both
at column `0` and at column `i + 1`; consequently the softmax probability
of label class `0` never exceeds `1/2` and the loss returned by `trainStep`
is at least `log 2` for every batch and every embedding state. -/
theorem concat_loss_at_least_log_two (s : ModelState) (us ix : List ℕ)
    (i : ℕ) (hi : i < us.length) :
    allScores s us ix i (i + 1) = allScores s us ix i 0 ∧
    rowProb s us ix i 0 ≤ 1 / 2 ∧
    Real.log 2 ≤ lossConcat s us ix := by
  refine ⟨allScores_dup s us ix i, rowProb_le_half s us ix i hi, ?_⟩
  have hB : 0 < us.length := lt_of_le_of_lt (Nat.zero_le i) hi
  have hBR : (0 : ℝ) < us.length := by exact_mod_cast hB
  unfold lossConcat
  rw [le_div_iff₀ hBR]
  have hsum := Finset.sum_le_sum fun j hj =>
    row_ce_ge_log_two s us ix j (Finset.mem_range.mp hj)
  rw [Finset.sum_const, Finset.card_range, nsmul_eq_mul] at hsum
  rw [mul_comm]
  exact hsum

/-- Witness for C9 at a concrete state and batch. -/
theorem concat_loss_at_least_log_two_witness :
    0 < ([0] : List ℕ).length ∧
    (allScores zs [0] [0] 0 1 = allScores zs [0] [0] 0 0 ∧
     rowProb zs [0] [0] 0 0 ≤ 1 / 2 ∧
     Real.log 2 ≤ lossConcat zs [0] [0]) :=
  ⟨by decide, concat_loss_at_least_log_two zs [0] [0] 0 (by decide)⟩

/-- Concrete gradient evaluation: for any state whose user table is `[1]`
in row 0 and `[0]` elsewhere and whose item table is all-zero (dimension
1), the batch `([0,1], [0,1])` produces the item-row-1 gradient `1/6`:
all scores vanish, every softmax probability is `1/3`, and only user row 0
contributes. -/
theorem gradItem_row1_concrete (s : ModelState) (hdim : s.embeddingDim = 1)
    (hu : s.userEmbeddings = fun r _ => if r = 0 then (1 : ℝ) else 0)
    (hw : s.itemEmbeddings = fun _ _ => (0 : ℝ)) :
    gradItemTable s [0, 1] [0, 1] 1 0 = 1 / 6 := by
  have hallz : ∀ i k, allScores s [0, 1] [0, 1] i k = 0 := by
    intro i k
    unfold allScores posScores pairScores gatherRows
    rw [hw]
    simp
  have hprob : ∀ i k, rowProb s [0, 1] [0, 1] i k = 1 / 3 := by
    intro i k
    unfold rowProb rowDenom
    rw [hallz, Finset.sum_congr rfl fun k2 _ => by rw [hallz]]
    rw [show ([0, 1] : List ℕ).length + 1 = 3 from rfl]
    norm_num [Real.exp_zero, Finset.sum_const, Finset.card_range, nsmul_eq_mul]
  have hgu : ∀ i, gatherRows s.userEmbeddings [0, 1] i 0
      = if ([0, 1] : List ℕ).getD i 0 = 0 then 1 else 0 := by
    intro i; unfold gatherRows; rw [hu]
  have hgpI : gradPosI s [0, 1] [0, 1] 1 0 = 1 / 6 := by
    unfold gradPosI
    simp only [hprob, hgu]
    rw [show ([0, 1] : List ℕ).length = 2 from rfl, Finset.sum_range_succ,
      Finset.sum_range_one]
    norm_num [List.getD]
  unfold gradItemTable
  rw [show ([0, 1] : List ℕ).length = 2 from rfl, Finset.sum_range_succ,
    Finset.sum_range_one]
  rw [show ([0, 1] : List ℕ).getD 0 0 = 0 from rfl,
    show ([0, 1] : List ℕ).getD 1 0 = 1 from rfl]
  rw [if_neg (by norm_num), if_pos rfl, hgpI]
  norm_num

/-- Claim C2 (amended): rows absent from the batch receive zero gradient
(the sparse gather backward pass), and a row whose Adam moment accumulators
are zero — as for any row never referenced by an earlier step — is left
exactly unchanged by `trainStep`. -/
theorem untouched_zero_moment_rows_unchanged (s : ModelState)
    (us ix : List ℕ) (ru ri d : ℕ) (hlen : us.length = ix.length)
    (hu : ru ∉ us) (hi : ri ∉ ix)
    (hmu : s.userM ru d = 0) (hvu : s.userV ru d = 0)
    (hmi : s.itemM ri d = 0) (hvi : s.itemV ri d = 0) :
    (applyAdamStep s us ix).userEmbeddings ru d = s.userEmbeddings ru d ∧
    (applyAdamStep s us ix).itemEmbeddings ri d = s.itemEmbeddings ri d := by
  constructor
  · show adamUpdatedEntry s.learningRate (s.userEmbeddings ru d) (s.userM ru d)
      (s.userV ru d) (gradUserTable s us ix ru d) (s.stepCount + 1) = _
    rw [gradUserTable_eq_zero s us ix ru d hu, hmu, hvu, adamEntry_zero]
  · show adamUpdatedEntry s.learningRate (s.itemEmbeddings ri d) (s.itemM ri d)
      (s.itemV ri d) (gradItemTable s us ix ri d) (s.stepCount + 1) = _
    rw [gradItemTable_eq_zero s us ix ri d hi hlen, hmi, hvi, adamEntry_zero]

/-- Witness for C2 at a concrete fresh state and batch. -/
theorem untouched_zero_moment_rows_unchanged_witness :
    (([0, 0] : List ℕ).length = ([0, 0] : List ℕ).length ∧
      (1 : ℕ) ∉ ([0, 0] : List ℕ) ∧ zs.userM 1 0 = 0 ∧ zs.userV 1 0 = 0 ∧
      zs.itemM 1 0 = 0 ∧ zs.itemV 1 0 = 0) ∧
    ((applyAdamStep zs [0, 0] [0, 0]).userEmbeddings 1 0 = zs.userEmbeddings 1 0 ∧
     (applyAdamStep zs [0, 0] [0, 0]).itemEmbeddings 1 0 = zs.itemEmbeddings 1 0) :=
  ⟨⟨rfl, by decide, rfl, rfl, rfl, rfl⟩,
    untouched_zero_moment_rows_unchanged zs [0, 0] [0, 0] 1 1 0 rfl
      (by decide) (by decide) rfl rfl rfl rfl⟩

/-- Counterexample for C2 as stated: tf.js Adam is dense, so a row with
stale nonzero momentum moves even in a step whose batch does not reference
it.  Starting from `exS`, the first step (batch `([0,1], [0,1])`) gives
item row 1 the gradient `1/6` and hence nonzero moments; the second step
(batch `([0,0], [0,0])`, which does not contain item index 1) still changes
item row 1 through the momentum-decay update. -/
theorem stale_momentum_row_moves_without_batch :
    (1 : ℕ) ∉ ([0, 0] : List ℕ) ∧
    (applyAdamStep (applyAdamStep exS [0, 1] [0, 1]) [0, 0] [0, 0]).itemEmbeddings 1 0 ≠
      (applyAdamStep exS [0, 1] [0, 1]).itemEmbeddings 1 0 := by
  refine ⟨by decide, ?_⟩
  set s1 := applyAdamStep exS [0, 1] [0, 1] with hs1
  have hg1 : gradItemTable exS [0, 1] [0, 1] 1 0 = 1 / 6 :=
    gradItem_row1_concrete exS rfl rfl rfl
  have hM : s1.itemM 1 0 = 1 / 60 := by
    rw [hs1]
    show adamNewM (exS.itemM 1 0) (gradItemTable exS [0, 1] [0, 1] 1 0) = 1 / 60
    rw [hg1]
    norm_num [adamNewM, adamBeta1, exS]
  have hV : s1.itemV 1 0 = 1 / 36000 := by
    rw [hs1]
    show adamNewV (exS.itemV 1 0) (gradItemTable exS [0, 1] [0, 1] 1 0) = 1 / 36000
    rw [hg1]
    norm_num [adamNewV, adamBeta2, exS]
  have hg2 : gradItemTable s1 [0, 0] [0, 0] 1 0 = 0 := by
    unfold gradItemTable
    rw [show ([0, 0] : List ℕ).length = 2 from rfl, Finset.sum_range_succ,
      Finset.sum_range_one]
    rw [show ([0, 0] : List ℕ).getD 0 0 = 0 from rfl,
      show ([0, 0] : List ℕ).getD 1 0 = 0 from rfl]
    rw [if_neg (by norm_num), if_neg (by norm_num)]
    norm_num
  have hupd : (applyAdamStep s1 [0, 0] [0, 0]).itemEmbeddings 1 0
      = adamUpdatedEntry s1.learningRate (s1.itemEmbeddings 1 0) (s1.itemM 1 0)
          (s1.itemV 1 0) (gradItemTable s1 [0, 0] [0, 0] 1 0) (s1.stepCount + 1) := rfl
  rw [hupd, hg2, hM, hV]
  rw [show s1.learningRate = 1 from rfl, show s1.stepCount = 1 from rfl]
  unfold adamUpdatedEntry adamNewM adamNewV adamNewTheta
  rw [Ne, sub_eq_self, one_mul]
  have hm : (0 : ℝ) < (adamBeta1 * (1 / 60) + (1 - adamBeta1) * 0)
      / (1 - adamBeta1 ^ (1 + 1)) := by
    norm_num [adamBeta1]
  have hden : (0 : ℝ) < Real.sqrt ((adamBeta2 * (1 / 36000) + (1 - adamBeta2) * 0 * 0)
      / (1 - adamBeta2 ^ (1 + 1))) + adamEps := by
    have h1 : (0 : ℝ) < adamEps := by norm_num [adamEps]
    linarith [Real.sqrt_nonneg ((adamBeta2 * (1 / 36000) + (1 - adamBeta2) * 0 * 0)
      / (1 - adamBeta2 ^ (1 + 1)))]
  exact ne_of_gt (div_pos hm hden)

/-- Claim C4 (amended): `trainStep` performs no index validation: every
call — whatever the indices — returns the loss and commits the Adam update,
never raising `IndexOutOfRangeError`; and a call whose batch contains an
out-of-range user index (index 1 with `numUsers = 1`) commits a real change
to a referenced embedding row rather than leaving all rows unchanged. -/
theorem trainStep_no_index_validation :
    (∀ (s : ModelState) (us ix : List ℕ),
      trainStepConcat s us ix = Except.ok (lossConcat s us ix, applyAdamStep s us ix)) ∧
    oobS.numUsers ≤ 1 ∧
    (applyAdamStep oobS [0, 1] [0, 1]).itemEmbeddings 1 0 ≠ oobS.itemEmbeddings 1 0 := by
  refine ⟨fun s us ix => rfl, le_refl 1, ?_⟩
  have hg : gradItemTable oobS [0, 1] [0, 1] 1 0 = 1 / 6 :=
    gradItem_row1_concrete oobS rfl rfl rfl
  have hupd : (applyAdamStep oobS [0, 1] [0, 1]).itemEmbeddings 1 0
      = adamUpdatedEntry oobS.learningRate (oobS.itemEmbeddings 1 0) (oobS.itemM 1 0)
          (oobS.itemV 1 0) (gradItemTable oobS [0, 1] [0, 1] 1 0) (oobS.stepCount + 1) := rfl
  rw [hupd, hg]
  rw [show oobS.learningRate = 1 from rfl, show oobS.itemM 1 0 = 0 from rfl,
    show oobS.itemV 1 0 = 0 from rfl, show oobS.stepCount = 0 from rfl]
  unfold adamUpdatedEntry adamNewM adamNewV adamNewTheta
  rw [Ne, sub_eq_self, one_mul]
  have hm : (0 : ℝ) < (adamBeta1 * 0 + (1 - adamBeta1) * (1 / 6))
      / (1 - adamBeta1 ^ (0 + 1)) := by
    norm_num [adamBeta1]
  have hden : (0 : ℝ) < Real.sqrt ((adamBeta2 * 0 + (1 - adamBeta2) * (1 / 6) * (1 / 6))
      / (1 - adamBeta2 ^ (0 + 1))) + adamEps := by
    have h1 : (0 : ℝ) < adamEps := by norm_num [adamEps]
    linarith [Real.sqrt_nonneg ((adamBeta2 * 0 + (1 - adamBeta2) * (1 / 6) * (1 / 6))
      / (1 - adamBeta2 ^ (0 + 1)))]
  exact ne_of_gt (div_pos hm hden)

/-- Counterexample for C4 as stated: a call whose batch contains the
out-of-range user index 1 (`numUsers = 1`) is not rejected with
`IndexOutOfRangeError`. -/
theorem oob_batch_not_rejected :
    ((1 : ℕ) ∈ ([0, 1] : List ℕ) ∧ oobS.numUsers ≤ 1) ∧
    trainStepConcat oobS [0, 1] [0, 1] ≠ Except.error TrainErr.indexOutOfRange :=
  ⟨⟨by decide, le_refl 1⟩, fun h => by simp [trainStepConcat] at h⟩
